import Mathlib

/-!
# airbox shipper: the batch-and-ship cycle

A shallow embedding of `src/main.go` (`processFiles`, `sendPayload`) and of the
library calls it makes.  The Go standard library is not part of the repository,
so its calls are modelled at the level the program observes them:

* a byte buffer is represented by what `encoding/json` sees in it: either text
  that is not one JSON value, or the JSON value the text denotes; the scanner
  of the decoder accepts such a text up to its nesting limit only;
* the file system is a finite map from paths to files, a file carrying the
  outcome of `ioutil.ReadFile` and of `os.Remove` on it;
* `filepath.Glob`, `http.NewRequest` and `http.Client.Do` are fields of an
  `OS` record that every theorem quantifies over.
-/

namespace Shipper

/-! ## JSON as seen by `encoding/json` -/

/-- A number literal of a JSON text, by the outcome of `strconv.ParseFloat(s, 64)`:
the finite float64 it converts to (by its bit pattern), or a range error. -/
inductive NumLit where
  | fits (bits : Nat)
  | overflow

/-- The JSON value a syntactically valid JSON text denotes. -/
inductive JSON where
  | null
  | bool (b : Bool)
  | number (n : NumLit)
  | string (s : String)
  | array (xs : List JSON)
  | object (kvs : List (String × JSON))

/-- A Go `interface{}` holding decoded JSON: `nil`, `bool`, `float64`, `string`,
`[]interface{}` or `map[string]interface{}`.  A map is kept as its entries in
increasing key order, each key once. -/
inductive Value where
  | nil
  | bool (b : Bool)
  | float64 (bits : Nat)
  | string (s : String)
  | slice (xs : List Value)
  | map (m : List (String × Value))

/-- Go `m[k] = v` on a map kept in increasing key order, keys compared as
sequences of characters. -/
def mapSet {α : Type} (k : String) (v : α) : List (String × α) → List (String × α)
  | [] => [(k, v)]
  | (k', v') :: rest =>
    if k.data < k'.data then (k, v) :: (k', v') :: rest
    else if k = k' then (k, v) :: rest
    else (k', v') :: mapSet k v rest

mutual
/-- The decoder of `encoding/json` into an `interface{}`: a number outside the
float64 range is an `UnmarshalTypeError`, which makes `json.Unmarshal` return
an error. -/
def decodeValue : JSON → Option Value
  | .null => some .nil
  | .bool b => some (.bool b)
  | .number (.fits bits) => some (.float64 bits)
  | .number .overflow => none
  | .string s => some (.string s)
  | .array xs => (decodeArray xs).map Value.slice
  | .object kvs => (decodeObject [] kvs).map Value.map
/-- Decoding the elements of an array, in order. -/
def decodeArray : List JSON → Option (List Value)
  | [] => some []
  | x :: xs =>
    match decodeValue x, decodeArray xs with
    | some v, some vs => some (v :: vs)
    | _, _ => none
/-- Decoding the members of an object into the map `m`, in order: a key that
occurs again overwrites the earlier entry. -/
def decodeObject (m : List (String × Value)) : List (String × JSON) → Option (List (String × Value))
  | [] => some m
  | (k, j) :: rest =>
    match decodeValue j with
    | some v => decodeObject (mapSet k v m) rest
    | none => none
end

mutual
/-- The encoder of `encoding/json` on an `interface{}`: map entries are written
in increasing key order. -/
def encodeValue : Value → JSON
  | .nil => .null
  | .bool b => .bool b
  | .float64 bits => .number (.fits bits)
  | .string s => .string s
  | .slice xs => .array (encodeSlice xs)
  | .map m => .object (encodeMap m)
/-- Encoding the elements of a slice, in order. -/
def encodeSlice : List Value → List JSON
  | [] => []
  | v :: vs => encodeValue v :: encodeSlice vs
/-- Encoding the entries of a map, in order. -/
def encodeMap : List (String × Value) → List (String × JSON)
  | [] => []
  | (k, v) :: rest => (k, encodeValue v) :: encodeMap rest
end

/-! ## Byte buffers, documents and the payload -/

/-- A byte buffer (`[]byte`), by the JSON it holds: `invalid` when it is not the
text of one JSON value (a syntax error, several values in a row), `text j` when
it is the text of the one JSON value `j`, nested to any depth, with optional
surrounding white space. -/
inductive Bytes where
  | invalid
  | text (j : JSON)

/-- The constant `maxNestingDepth` of the scanner of `encoding/json`. -/
def maxNestingDepth : Nat := 10000

mutual
/-- The nesting depth of a JSON value: how many arrays and objects are open at
its deepest point. -/
def JSON.depth : JSON → Nat
  | .null => 0
  | .bool _ => 0
  | .number _ => 0
  | .string _ => 0
  | .array xs => depthArray xs + 1
  | .object kvs => depthObject kvs + 1
/-- The greatest depth among the elements of an array. -/
def depthArray : List JSON → Nat
  | [] => 0
  | x :: xs => max (JSON.depth x) (depthArray xs)
/-- The greatest depth among the members of an object. -/
def depthObject : List (String × JSON) → Nat
  | [] => 0
  | (_, j) :: rest => max (JSON.depth j) (depthObject rest)
end

/-- The scan `json.Unmarshal` starts with (`checkValid`): `none` is a
`SyntaxError`.  The scanner fails on text that is not one JSON value, and with
"exceeded max depth" when more than `maxNestingDepth` arrays and objects are
open at once. -/
def checkValid : Bytes → Option JSON
  | .invalid => none
  | .text j => if j.depth ≤ maxNestingDepth then some j else none

/-- A Go `map[string]interface{}`: `none` is the nil map. -/
abbrev Document := Option (List (String × Value))

/-- The `Payload` struct of `main.go`; a nil slice is the empty list. -/
structure Payload where
  Data : List Document

/-- Go `json.Unmarshal(content, &data)` for a nil `data map[string]interface{}`:
`none` is a returned error.  After the scan, JSON `null` leaves the map nil and
is no error; an object fills a fresh map; any other value is an
`UnmarshalTypeError`. -/
def jsonUnmarshalMap (content : Bytes) : Option Document :=
  match checkValid content with
  | none => none
  | some .null => some none
  | some (.object kvs) => (decodeObject [] kvs).map some
  | some _ => none

/-- Encoding of one element of `Payload.Data`: a nil map is written `null`. -/
def encodeDocument : Document → JSON
  | none => .null
  | some m => .object (encodeMap m)

/-- Encoding of the `Data` field: a nil slice is written `null`. -/
def encodeData : List Document → JSON
  | [] => .null
  | d :: ds => .array ((d :: ds).map encodeDocument)

/-- Go `json.Marshal(payload)` for a `Payload`: the object with the one member
`data`.  Values that came out of the decoder always encode, and the encoder has
no nesting limit, so no error is returned. -/
def jsonMarshal (payload : Payload) : Option Bytes :=
  some (.text (.object [("data", encodeData payload.Data)]))

/-! ## File system, network and configuration -/

/-- A file path. -/
abbrev Path := String

/-- A directory entry: what `ioutil.ReadFile` returns for it (`none` is an
error) and whether `os.Remove` succeeds on it. -/
structure File where
  content : Option Bytes
  removable : Bool

/-- The file system: the entry at each path, `none` where nothing exists. -/
abbrev FS := Path → Option File

/-- The `Config` struct of `main.go`. -/
structure Config where
  PathPattern : String
  MaxFiles : Int
  ApiEndpoint : String
  ApiToken : String
  ServerKey : String
  CheckInterval : Int

/-- Go `http.Header`, each key holding a single value. -/
abbrev Header := List (String × String)

/-- Go `Header.Set`: replaces the value of the key, or adds the key.  The keys
used by `sendPayload` are already in canonical MIME form. -/
def Header.Set (key value : String) : Header → Header
  | [] => [(key, value)]
  | (k, v) :: rest => if k = key then (key, value) :: rest else (k, v) :: Header.Set key value rest

/-- Go `Header.Get`: the value of the key, `""` when absent. -/
def Header.Get (key : String) : Header → String
  | [] => ""
  | (k, v) :: rest => if k = key then v else Header.Get key rest

/-- Go `http.Request`, the fields `sendPayload` sets. -/
structure Request where
  Method : String
  URL : String
  Header : Header
  Body : Bytes

/-- Go `http.Response`, the field `sendPayload` reads. -/
structure Response where
  StatusCode : Int

/-- The behaviour of the library calls that depend on the outside world. -/
structure OS where
  /-- Result of `filepath.Glob(pattern)`: `none` is `ErrBadPattern`. -/
  Glob : String → FS → Option (List Path)
  /-- Whether `http.NewRequest` can parse the URL. -/
  validURL : String → Bool
  /-- Result of `client.Do(req)`: `none` is a transport error. -/
  Do : Request → Option Response

/-- An observable effect of a cycle. -/
inductive Event where
  | read (file : Path)
  | post (req : Request)
  | remove (file : Path) (ok : Bool)

/-- The state a cycle runs in: the file system and the effects so far. -/
structure World where
  fs : FS
  trace : List Event

/-- Go `ioutil.ReadFile(file)`. -/
def ReadFile (file : Path) (w : World) : Option Bytes × World :=
  ((w.fs file).bind File.content, { w with trace := w.trace ++ [.read file] })

/-- Go `os.Remove(file)`: `true` when the file was removed. -/
def Remove (file : Path) (w : World) : Bool × World :=
  match w.fs file with
  | some f =>
    if f.removable then
      (true, { fs := fun p => if p = file then none else w.fs p,
               trace := w.trace ++ [.remove file true] })
    else (false, { w with trace := w.trace ++ [.remove file false] })
  | none => (false, { w with trace := w.trace ++ [.remove file false] })

/-- Go `http.NewRequest(method, url, body)` with an empty header. -/
def NewRequest (os : OS) (method url : String) (body : Bytes) : Option Request :=
  if os.validURL url then some { Method := method, URL := url, Header := [], Body := body }
  else none

/-- Go `client.Do(req)`. -/
def clientDo (os : OS) (req : Request) (w : World) : Option Response × World :=
  (os.Do req, { w with trace := w.trace ++ [.post req] })

/-- Go `files[:n]`: `none` is the slice-bounds panic. -/
def sliceTo (files : List Path) (n : Int) : Option (List Path) :=
  if 0 ≤ n ∧ n ≤ files.length then some (files.take n.toNat) else none

/-! ## The program -/

/-- How a cycle of `processFiles` ended. -/
inductive Outcome where
  | globError
  | noFiles
  | noValidData
  | marshalError
  | sendFailed
  | committed
  | panicked
  deriving DecidableEq, Repr

/-- The function `sendPayload` of `main.go`. -/
def sendPayload (config : Config) (os : OS) (payload : Bytes) (w : World) : Bool × World :=
  match NewRequest os "POST" config.ApiEndpoint payload with
  | none => (false, w)
  | some req =>
    let req := { req with Header := req.Header.Set "Accept" "application/vnd.airbox.v1+json" }
    let req := { req with Header := req.Header.Set "Content-Type" "application/json" }
    let req := { req with Header := req.Header.Set "Authorization" ("Bearer " ++ config.ApiToken) }
    let req := { req with Header := req.Header.Set "X-Server-Key" config.ServerKey }
    match clientDo os req w with
    | (none, w) => (false, w)
    | (some resp, w) =>
      if resp.StatusCode ≠ 200 then (false, w)
      else (true, w)

/-- The loading loop of `processFiles` (lines 80-94). -/
def loadLoop : List Path → List Document → World → List Document × World
  | [], payloadData, w => (payloadData, w)
  | file :: rest, payloadData, w =>
    match ReadFile file w with
    | (none, w) => loadLoop rest payloadData w
    | (some content, w) =>
      match jsonUnmarshalMap content with
      | none => loadLoop rest payloadData w
      | some data => loadLoop rest (payloadData ++ [data]) w

/-- The deletion loop of `processFiles` (lines 111-117). -/
def removeLoop : List Path → World → World
  | [], w => w
  | file :: rest, w => removeLoop rest (Remove file w).2

/-- The function `processFiles` of `main.go`. -/
def processFiles (config : Config) (os : OS) (w : World) : Outcome × World :=
  match os.Glob config.PathPattern w.fs with
  | none => (.globError, w)
  | some files =>
    if files.length = 0 then (.noFiles, w)
    else
      let truncated :=
        if (files.length : Int) > config.MaxFiles then sliceTo files config.MaxFiles
        else some files
      match truncated with
      | none => (.panicked, w)
      | some files =>
        match loadLoop files [] w with
        | (payloadData, w) =>
          if payloadData.length = 0 then (.noValidData, w)
          else
            match jsonMarshal { Data := payloadData } with
            | none => (.marshalError, w)
            | some payloadBytes =>
              match sendPayload config os payloadBytes w with
              | (true, w) => (.committed, removeLoop files w)
              | (false, w) => (.sendFailed, w)

/-! ## Observations used in the statements -/

/-- Go `json.Unmarshal(buf, &v)` for a nil `v interface{}`: what a reader of the
buffer obtains, `none` when the scan or the decoding fails. -/
def deserialize (buf : Bytes) : Option Value :=
  match checkValid buf with
  | none => none
  | some j => decodeValue j

/-- The nesting depth of a document: that of its encoding. -/
def Document.depth (d : Document) : Nat :=
  (encodeDocument d).depth

/-- What `ioutil.ReadFile` returns for a path: `none` is an error. -/
def contentOf (fs : FS) (file : Path) : Option Bytes :=
  (fs file).bind File.content

/-- The object nested `n` levels deep around `null`, one member per level. -/
def nested : Nat → JSON
  | 0 => .null
  | n + 1 => .object [("a", nested n)]

/-- The value `nested n` decodes to. -/
def nestedValue : Nat → Value
  | 0 => .nil
  | n + 1 => .map [("a", nestedValue n)]

/-- A `Document` as an `interface{}` value: the nil map is `nil`. -/
def Document.toValue : Document → Value
  | none => .nil
  | some m => .map m

/-- What one iteration of the loading loop obtains from a file: `none` when the
read or the parse fails (lines 81-91). -/
def loadFile (fs : FS) (file : Path) : Option Document :=
  ((ReadFile file ⟨fs, []⟩).1).bind jsonUnmarshalMap

/-- The files read, in order. -/
def reads : List Event → List Path
  | [] => []
  | .read file :: tr => file :: reads tr
  | _ :: tr => reads tr

/-- The requests handed to `client.Do`, in order. -/
def posts : List Event → List Request
  | [] => []
  | .post req :: tr => req :: posts tr
  | _ :: tr => posts tr

/-- The files whose removal was attempted, in order. -/
def removals : List Event → List Path
  | [] => []
  | .remove file _ :: tr => file :: removals tr
  | _ :: tr => removals tr

mutual
/-- True when no number literal of the value is outside the float64 range. -/
def JSON.inRange : JSON → Bool
  | .null => true
  | .bool _ => true
  | .number (.fits _) => true
  | .number .overflow => false
  | .string _ => true
  | .array xs => inRangeArray xs
  | .object kvs => inRangeObject kvs
/-- The same for the elements of an array. -/
def inRangeArray : List JSON → Bool
  | [] => true
  | x :: xs => JSON.inRange x && inRangeArray xs
/-- The same for the members of an object. -/
def inRangeObject : List (String × JSON) → Bool
  | [] => true
  | (_, j) :: rest => JSON.inRange j && inRangeObject rest
end

/-- The acceptance condition of the loader, as amended: the content is one JSON
value, nested no deeper than the scanner allows, that is `null` or an object
without a number literal outside the float64 range. -/
def acceptable : Bytes → Bool
  | .text .null => true
  | .text (.object kvs) =>
    inRangeObject kvs && decide ((JSON.object kvs).depth ≤ maxNestingDepth)
  | _ => false

/-- Keys strictly increasing. -/
def KeysSorted {α : Type} (m : List (String × α)) : Prop :=
  m.Pairwise (fun a b => a.1.data < b.1.data)

/-- The request `sendPayload` builds (lines 123-132). -/
def builtRequest (config : Config) (payload : Bytes) : Request :=
  { Method := "POST", URL := config.ApiEndpoint,
    Header := [("Accept", "application/vnd.airbox.v1+json"), ("Content-Type", "application/json"),
      ("Authorization", "Bearer " ++ config.ApiToken), ("X-Server-Key", config.ServerKey)],
    Body := payload }

/-- The byte buffer a cycle marshals for the documents it loaded. -/
def payloadBytes (docs : List Document) : Bytes :=
  .text (.object [("data", encodeData docs)])

/-! ## Scenarios -/

/-- The content of the files of `TestProcessFiles`: the object with the one
member `key`. -/
def okContent : Bytes :=
  .text (.object [("key", .string "value")])

/-- The document `okContent` parses to. -/
def okDocument : Document :=
  some [("key", .string "value")]

/-- A valid, removable file. -/
def okFile : File :=
  { content := some okContent, removable := true }

/-- A removable file whose content is not JSON. -/
def malformedFile : File :=
  { content := some .invalid, removable := true }

/-- A file system holding the listed entries. -/
def fsOf : List (Path × File) → FS
  | [], _ => none
  | (q, f) :: rest, p => if p = q then some f else fsOf rest p

/-- The configuration of the repository's tests. -/
def testConfig : Config :=
  { PathPattern := "test/*.json", MaxFiles := 5, ApiEndpoint := "http://localhost:8080/test",
    ApiToken := "test_token", ServerKey := "test_server_key", CheckInterval := 10000000000 }

/-- An environment whose glob lists those of `names` that exist, whose URLs all
parse and whose endpoint answers every request with `status`. -/
def osAnswering (names : List Path) (status : Int) : OS :=
  { Glob := fun _ fs => some (names.filter (fun p => (fs p).isSome)),
    validURL := fun _ => true,
    Do := fun _ => some { StatusCode := status } }

/-- Scenario D: two valid files and a malformed one. -/
def fsD : FS :=
  fsOf [("a.json", okFile), ("bad.json", malformedFile), ("c.json", okFile)]

/-- Scenario E: one valid file. -/
def fsE : FS :=
  fsOf [("a.json", okFile)]

/-- Scenario F: two valid files, the first of which cannot be removed. -/
def fsF : FS :=
  fsOf [("a.json", { content := some okContent, removable := false }), ("b.json", okFile)]

/-- The names of scenario C. -/
def namesC : List Path :=
  ["f0.json", "f1.json", "f2.json", "f3.json", "f4.json",
   "f5.json", "f6.json", "f7.json", "f8.json", "f9.json"]

/-- Scenario C: ten valid files. -/
def fsC : FS :=
  fsOf (namesC.map (fun p => (p, okFile)))

/-- A file system whose one file holds the JSON text `null`. -/
def fsNull : FS :=
  fsOf [("n.json", { content := some (.text .null), removable := true })]

/-- The test configuration with a negative `MaxFiles`. -/
def negativeConfig : Config :=
  { testConfig with MaxFiles := -1 }

/-- The test configuration with `MaxFiles` zero. -/
def zeroConfig : Config :=
  { testConfig with MaxFiles := 0 }

/-- Whether the loader accepts the file at a path, as amended: the file reads
and its content is `acceptable`. -/
def accepts (fs : FS) (file : Path) : Bool :=
  match contentOf fs file with
  | some content => acceptable content
  | none => false

/-- A file system whose one file holds an object nested `n + 1` levels deep. -/
def fsDeep (n : Nat) : FS :=
  fsOf [("deep.json", { content := some (.text (nested (n + 1))), removable := true })]

/-- A file system whose one file holds an object with a number literal outside
the float64 range. -/
def fsOverflow : FS :=
  fsOf [("o.json", { content := some (.text (.object [("n", .number .overflow)])),
                     removable := true })]

/-! ## Lemmas on the decoder and the encoder, the loops and the cycle -/

theorem mapSet_mem {α : Type} (k : String) (v : α) (m : List (String × α)) (e : String × α)
    (he : e ∈ mapSet k v m) : e = (k, v) ∨ e ∈ m := by
  induction m with
  | nil => simp [mapSet] at he; exact Or.inl he
  | cons hd tl ih =>
    obtain ⟨k', v'⟩ := hd
    simp only [mapSet] at he
    split_ifs at he with h1 h2
    · simp at he ⊢; tauto
    · simp at he ⊢; tauto
    · simp at he ⊢
      rcases he with he | he
      · tauto
      · have := ih he; tauto

theorem mapSet_sorted {α : Type} (k : String) (v : α) (m : List (String × α))
    (hm : KeysSorted m) : KeysSorted (mapSet k v m) := by
  induction m with
  | nil => simp [mapSet, KeysSorted]
  | cons hd tl ih =>
    obtain ⟨k', v'⟩ := hd
    unfold KeysSorted at hm ih ⊢
    rw [List.pairwise_cons] at hm
    simp only [mapSet]
    split_ifs with h1 h2
    · rw [List.pairwise_cons]
      refine ⟨?_, List.pairwise_cons.2 hm⟩
      intro e he
      rcases List.mem_cons.1 he with rfl | he
      · exact h1
      · exact lt_trans h1 (hm.1 e he)
    · subst h2
      exact List.pairwise_cons.2 hm
    · rw [List.pairwise_cons]
      refine ⟨?_, ih hm.2⟩
      intro e he
      rcases mapSet_mem k v tl e he with rfl | he
      · have h3 : k.data ≠ k'.data := fun h => h2 (String.ext h)
        exact lt_of_le_of_ne (not_lt.1 h1) (Ne.symm h3)
      · exact hm.1 e he

theorem mapSet_append {α : Type} (k : String) (v : α) (m : List (String × α))
    (hm : ∀ e ∈ m, e.1.data < k.data) : mapSet k v m = m ++ [(k, v)] := by
  induction m with
  | nil => rfl
  | cons hd tl ih =>
    obtain ⟨k', v'⟩ := hd
    have h1 : k'.data < k.data := hm (k', v') (by simp)
    have h2 : ¬ k.data < k'.data := not_lt.2 (le_of_lt h1)
    have h3 : k ≠ k' := by
      rintro rfl
      exact lt_irrefl _ h1
    simp only [mapSet, if_neg h2, if_neg h3, List.cons_append]
    rw [ih (fun e he => hm e (List.mem_cons_of_mem _ he))]

theorem decodeArray_encodeSlice (vs : List Value)
    (h : ∀ v ∈ vs, decodeValue (encodeValue v) = some v) :
    decodeArray (encodeSlice vs) = some vs := by
  induction vs with
  | nil => simp [encodeSlice, decodeArray]
  | cons v vs ih =>
    simp only [encodeSlice, decodeArray]
    rw [h v (by simp), ih (fun u hu => h u (List.mem_cons_of_mem _ hu))]

theorem decodeObject_encodeMap (m : List (String × Value)) :
    ∀ acc : List (String × Value), KeysSorted (acc ++ m) →
      (∀ e ∈ m, decodeValue (encodeValue e.2) = some e.2) →
      decodeObject acc (encodeMap m) = some (acc ++ m) := by
  induction m with
  | nil => intro acc _ _; simp [encodeMap, decodeObject]
  | cons hd tl ih =>
    intro acc hs h
    obtain ⟨k, v⟩ := hd
    have hv : decodeValue (encodeValue v) = some v := h (k, v) (by simp)
    have hlt : ∀ e ∈ acc, e.1.data < k.data := by
      intro e he
      unfold KeysSorted at hs
      rw [List.pairwise_append] at hs
      exact hs.2.2 e he (k, v) (by simp)
    simp only [encodeMap, decodeObject, hv]
    rw [mapSet_append k v acc hlt]
    have hs2 : KeysSorted ((acc ++ [(k, v)]) ++ tl) := by simpa using hs
    rw [ih (acc ++ [(k, v)]) hs2 (fun e he => h e (List.mem_cons_of_mem _ he))]
    simp

mutual
theorem decodeValue_roundtrip : ∀ (j : JSON) (v : Value), decodeValue j = some v →
    decodeValue (encodeValue v) = some v
  | .null, v, h => by
    simp only [decodeValue, Option.some.injEq] at h; subst h; simp [encodeValue, decodeValue]
  | .bool b, v, h => by
    simp only [decodeValue, Option.some.injEq] at h; subst h; simp [encodeValue, decodeValue]
  | .number (.fits bits), v, h => by
    simp only [decodeValue, Option.some.injEq] at h; subst h; simp [encodeValue, decodeValue]
  | .number .overflow, v, h => by simp [decodeValue] at h
  | .string s, v, h => by
    simp only [decodeValue, Option.some.injEq] at h; subst h; simp [encodeValue, decodeValue]
  | .array xs, v, h => by
    simp only [decodeValue, Option.map_eq_some'] at h
    obtain ⟨vs, hvs, rfl⟩ := h
    simp only [encodeValue, decodeValue]
    rw [decodeArray_encodeSlice vs (decodeArray_roundtrip xs vs hvs)]
    rfl
  | .object kvs, v, h => by
    simp only [decodeValue, Option.map_eq_some'] at h
    obtain ⟨m, hm, rfl⟩ := h
    have := decodeObject_roundtrip kvs [] m hm (by simp [KeysSorted]) (by simp)
    simp only [encodeValue, decodeValue]
    rw [decodeObject_encodeMap m [] (by simpa using this.1) this.2]
    rfl
theorem decodeArray_roundtrip : ∀ (xs : List JSON) (vs : List Value), decodeArray xs = some vs →
    ∀ v ∈ vs, decodeValue (encodeValue v) = some v
  | [], vs, h => by
    simp only [decodeArray, Option.some.injEq] at h; subst h; simp
  | x :: xs, vs, h => by
    simp only [decodeArray] at h
    cases hx : decodeValue x with
    | none => simp [hx] at h
    | some v0 =>
      cases hxs : decodeArray xs with
      | none => simp [hx, hxs] at h
      | some vs0 =>
        simp only [hx, hxs, Option.some.injEq] at h
        subst h
        intro v hv
        rcases List.mem_cons.1 hv with rfl | hv
        · exact decodeValue_roundtrip x _ hx
        · exact decodeArray_roundtrip xs vs0 hxs v hv
theorem decodeObject_roundtrip : ∀ (kvs : List (String × JSON)) (acc m : List (String × Value)),
    decodeObject acc kvs = some m → KeysSorted acc →
    (∀ e ∈ acc, decodeValue (encodeValue e.2) = some e.2) →
    KeysSorted m ∧ ∀ e ∈ m, decodeValue (encodeValue e.2) = some e.2
  | [], acc, m, h, hs, hr => by
    simp only [decodeObject, Option.some.injEq] at h; subst h; exact ⟨hs, hr⟩
  | (k, j) :: rest, acc, m, h, hs, hr => by
    simp only [decodeObject] at h
    cases hj : decodeValue j with
    | none => simp [hj] at h
    | some v0 =>
      simp only [hj] at h
      refine decodeObject_roundtrip rest (mapSet k v0 acc) m h (mapSet_sorted k v0 acc hs) ?_
      intro e he
      rcases mapSet_mem k v0 acc e he with rfl | he
      · exact decodeValue_roundtrip j _ hj
      · exact hr e he
end

mutual
theorem decodeValue_isSome : ∀ j : JSON, (decodeValue j).isSome = j.inRange
  | .null => by simp [decodeValue, JSON.inRange]
  | .bool _ => by simp [decodeValue, JSON.inRange]
  | .number (.fits _) => by simp [decodeValue, JSON.inRange]
  | .number .overflow => by simp [decodeValue, JSON.inRange]
  | .string _ => by simp [decodeValue, JSON.inRange]
  | .array xs => by
    simp only [decodeValue, JSON.inRange, Option.isSome_map']
    exact decodeArray_isSome xs
  | .object kvs => by
    simp only [decodeValue, JSON.inRange, Option.isSome_map']
    exact decodeObject_isSome kvs []
theorem decodeArray_isSome : ∀ xs : List JSON, (decodeArray xs).isSome = inRangeArray xs
  | [] => by simp [decodeArray, inRangeArray]
  | x :: xs => by
    have h1 := decodeValue_isSome x
    have h2 := decodeArray_isSome xs
    simp only [decodeArray, inRangeArray, ← h1, ← h2]
    cases decodeValue x <;> cases decodeArray xs <;> simp
theorem decodeObject_isSome : ∀ (kvs : List (String × JSON)) (acc : List (String × Value)),
    (decodeObject acc kvs).isSome = inRangeObject kvs
  | [], acc => by simp [decodeObject, inRangeObject]
  | (k, j) :: rest, acc => by
    have h1 := decodeValue_isSome j
    simp only [decodeObject, inRangeObject, ← h1]
    cases hj : decodeValue j with
    | none => simp
    | some v => simpa using decodeObject_isSome rest (mapSet k v acc)
end

theorem reads_append (a b : List Event) : reads (a ++ b) = reads a ++ reads b := by
  induction a with
  | nil => rfl
  | cons e a ih => cases e <;> simp [reads, ih]

theorem posts_append (a b : List Event) : posts (a ++ b) = posts a ++ posts b := by
  induction a with
  | nil => rfl
  | cons e a ih => cases e <;> simp [posts, ih]

theorem removals_append (a b : List Event) : removals (a ++ b) = removals a ++ removals b := by
  induction a with
  | nil => rfl
  | cons e a ih => cases e <;> simp [removals, ih]

theorem reads_map_read (files : List Path) : reads (files.map Event.read) = files := by
  induction files with
  | nil => rfl
  | cons f fs ih => simp [reads, ih]

theorem posts_map_read (files : List Path) : posts (files.map Event.read) = [] := by
  induction files with
  | nil => rfl
  | cons f fs ih => simp [posts, ih]

theorem removals_map_read (files : List Path) : removals (files.map Event.read) = [] := by
  induction files with
  | nil => rfl
  | cons f fs ih => simp [removals, ih]

/-- The loading loop reads every file once, in order, keeps the documents of
those that load, in order, and leaves the file system alone. -/
theorem loadLoop_eq (files : List Path) : ∀ (payloadData : List Document) (w : World),
    loadLoop files payloadData w =
      (payloadData ++ files.filterMap (loadFile w.fs),
        { fs := w.fs, trace := w.trace ++ files.map Event.read }) := by
  induction files with
  | nil => intro pd w; simp [loadLoop]
  | cons f rest ih =>
    intro pd w
    simp only [loadLoop, ReadFile, List.filterMap_cons, loadFile]
    cases hc : (w.fs f).bind File.content with
    | none => simp [ih]
    | some content =>
      cases hd : jsonUnmarshalMap content with
      | none => simp [ih, hd]
      | some d => simp [ih, hd]

theorem sendPayload_eq (config : Config) (os : OS) (payload : Bytes) (w : World) :
    sendPayload config os payload w =
      if os.validURL config.ApiEndpoint = true then
        (match os.Do (builtRequest config payload) with
          | some resp => decide (resp.StatusCode = 200)
          | none => false,
          { fs := w.fs, trace := w.trace ++ [Event.post (builtRequest config payload)] })
      else (false, w) := by
  unfold sendPayload NewRequest
  by_cases hv : os.validURL config.ApiEndpoint = true
  · simp only [hv, if_true, clientDo, Header.Set, builtRequest]
    simp only [String.reduceEq, if_false]
    cases hdo : os.Do _ with
    | none => simp
    | some resp =>
      by_cases hs : resp.StatusCode = 200 <;> simp [hs]
  · simp [hv]

theorem Remove_fs (file : Path) (w : World) (p : Path) :
    (Remove file w).2.fs p =
      match w.fs p with
      | some f => if p = file ∧ f.removable = true then none else some f
      | none => none := by
  cases hf : w.fs file with
  | none =>
    by_cases hp : p = file
    · subst hp; simp [Remove, hf]
    · cases h : w.fs p <;> simp [Remove, hf, hp, h]
  | some f =>
    by_cases hp : p = file
    · subst hp
      cases hr : f.removable <;> simp [Remove, hf, hr]
    · cases hr : f.removable <;> cases h : w.fs p <;> simp [Remove, hf, hr, hp, h]

theorem Remove_trace (file : Path) (w : World) :
    (Remove file w).2.trace = w.trace ++ [Event.remove file (Remove file w).1] := by
  cases hf : w.fs file with
  | none => simp [Remove, hf]
  | some f => cases hr : f.removable <;> simp [Remove, hf, hr]

/-- After the deletion loop a path holds what it held before, unless it is in
the list and its removal succeeds. -/
theorem removeLoop_fs (files : List Path) : ∀ (w : World) (p : Path),
    (removeLoop files w).fs p =
      match w.fs p with
      | some f => if p ∈ files ∧ f.removable = true then none else some f
      | none => none := by
  induction files with
  | nil => intro w p; cases h : w.fs p <;> simp [removeLoop, h]
  | cons file rest ih =>
    intro w p
    simp only [removeLoop]
    rw [ih, Remove_fs]
    cases h : w.fs p with
    | none => simp
    | some f =>
      by_cases hp : p = file <;> by_cases hr : f.removable = true <;>
        by_cases hm : p ∈ rest <;> simp [hp, hr, hm]

/-- The deletion loop attempts every path of the list, in order, and does
nothing else. -/
theorem removeLoop_trace (files : List Path) : ∀ w : World,
    removals (removeLoop files w).trace = removals w.trace ++ files ∧
    posts (removeLoop files w).trace = posts w.trace ∧
    reads (removeLoop files w).trace = reads w.trace := by
  induction files with
  | nil => intro w; simp [removeLoop]
  | cons file rest ih =>
    intro w
    simp only [removeLoop]
    obtain ⟨h1, h2, h3⟩ := ih (Remove file w).2
    rw [h1, h2, h3, Remove_trace]
    simp [removals_append, posts_append, reads_append, removals, posts, reads]

theorem truncate_ok (files : List Path) (n : Int) (hn : 0 ≤ n) :
    (if (files.length : Int) > n then sliceTo files n else some files) =
      some (files.take n.toNat) := by
  split_ifs with h
  · unfold sliceTo
    rw [if_pos ⟨hn, le_of_lt h⟩]
  · congr 1
    symm
    apply List.take_of_length_le
    omega

theorem truncate_panic (files : List Path) (n : Int) (hn : n < 0) :
    (if (files.length : Int) > n then sliceTo files n else some files) = none := by
  have hlen : (0 : Int) ≤ files.length := Int.natCast_nonneg _
  rw [if_pos (by omega)]
  unfold sliceTo
  rw [if_neg (by omega)]

/-- The course of a cycle whose glob succeeds with a non-empty list and whose
`MaxFiles` is not negative. -/
theorem processFiles_eq (config : Config) (os : OS) (w : World) (files : List Path)
    (hglob : os.Glob config.PathPattern w.fs = some files) (hne : files ≠ [])
    (hmax : 0 ≤ config.MaxFiles) :
    processFiles config os w =
      if ((files.take config.MaxFiles.toNat).filterMap (loadFile w.fs)).length = 0 then
        (Outcome.noValidData,
          { fs := w.fs, trace := w.trace ++ (files.take config.MaxFiles.toNat).map Event.read })
      else if os.validURL config.ApiEndpoint = true then
        match os.Do (builtRequest config
            (payloadBytes ((files.take config.MaxFiles.toNat).filterMap (loadFile w.fs)))) with
        | some resp =>
          if resp.StatusCode = 200 then
            (Outcome.committed, removeLoop (files.take config.MaxFiles.toNat)
              { fs := w.fs,
                trace := w.trace ++ (files.take config.MaxFiles.toNat).map Event.read ++
                  [Event.post (builtRequest config
                    (payloadBytes ((files.take config.MaxFiles.toNat).filterMap (loadFile w.fs))))] })
          else
            (Outcome.sendFailed,
              { fs := w.fs,
                trace := w.trace ++ (files.take config.MaxFiles.toNat).map Event.read ++
                  [Event.post (builtRequest config
                    (payloadBytes ((files.take config.MaxFiles.toNat).filterMap (loadFile w.fs))))] })
        | none =>
          (Outcome.sendFailed,
            { fs := w.fs,
              trace := w.trace ++ (files.take config.MaxFiles.toNat).map Event.read ++
                [Event.post (builtRequest config
                  (payloadBytes ((files.take config.MaxFiles.toNat).filterMap (loadFile w.fs))))] })
      else
        (Outcome.sendFailed,
          { fs := w.fs, trace := w.trace ++ (files.take config.MaxFiles.toNat).map Event.read }) := by
  unfold processFiles
  have hlen : ¬ files.length = 0 := by
    intro h; exact hne (List.length_eq_zero.1 h)
  simp only [hglob, hlen, if_false, truncate_ok files config.MaxFiles hmax, loadLoop_eq,
    List.nil_append, jsonMarshal, sendPayload_eq, payloadBytes]
  generalize (files.take config.MaxFiles.toNat).filterMap (loadFile w.fs) = docs
  generalize files.take config.MaxFiles.toNat = batch
  cases docs with
  | nil => simp
  | cons d ds =>
    simp only [List.length_cons, Nat.add_one_ne_zero, if_false]
    by_cases hv : os.validURL config.ApiEndpoint = true
    · simp only [hv, if_true]
      cases hdo : os.Do _ with
      | none => simp
      | some resp =>
        by_cases hs : resp.StatusCode = 200 <;> simp [hs]
    · simp [hv]

theorem processFiles_glob_none (config : Config) (os : OS) (w : World)
    (hglob : os.Glob config.PathPattern w.fs = none) :
    processFiles config os w = (Outcome.globError, w) := by
  simp [processFiles, hglob]

theorem processFiles_glob_nil (config : Config) (os : OS) (w : World)
    (hglob : os.Glob config.PathPattern w.fs = some []) :
    processFiles config os w = (Outcome.noFiles, w) := by
  simp [processFiles, hglob]

theorem processFiles_panic (config : Config) (os : OS) (w : World) (files : List Path)
    (hglob : os.Glob config.PathPattern w.fs = some files) (hne : files ≠ [])
    (hmax : config.MaxFiles < 0) :
    processFiles config os w = (Outcome.panicked, w) := by
  unfold processFiles
  have hlen : ¬ files.length = 0 := by
    intro h; exact hne (List.length_eq_zero.1 h)
  simp only [hglob, hlen, if_false, truncate_panic files config.MaxFiles hmax]

/-- What a cycle started on an empty trace leaves behind, in every case: the
requests posted, the removals attempted, the files read and the outcome. -/
theorem processFiles_cases (config : Config) (os : OS) (fs : FS) :
    ((processFiles config os ⟨fs, []⟩).2 = ⟨fs, []⟩ ∧
      (processFiles config os ⟨fs, []⟩).1 ≠ Outcome.committed ∧
      (processFiles config os ⟨fs, []⟩).1 ≠ Outcome.sendFailed ∧
      (processFiles config os ⟨fs, []⟩).1 ≠ Outcome.noValidData ∧
      (os.Glob config.PathPattern fs = none ∨ os.Glob config.PathPattern fs = some [] ∨
        config.MaxFiles < 0)) ∨
    (∃ files, os.Glob config.PathPattern fs = some files ∧ files ≠ [] ∧ 0 ≤ config.MaxFiles ∧
      ((files.take config.MaxFiles.toNat).filterMap (loadFile fs) = [] ∧
        processFiles config os ⟨fs, []⟩ = (Outcome.noValidData,
          ⟨fs, (files.take config.MaxFiles.toNat).map Event.read⟩) ∨
       (files.take config.MaxFiles.toNat).filterMap (loadFile fs) ≠ [] ∧
        os.validURL config.ApiEndpoint = false ∧
        processFiles config os ⟨fs, []⟩ = (Outcome.sendFailed,
          ⟨fs, (files.take config.MaxFiles.toNat).map Event.read⟩) ∨
       (files.take config.MaxFiles.toNat).filterMap (loadFile fs) ≠ [] ∧
        os.validURL config.ApiEndpoint = true ∧
        (∀ resp, os.Do (builtRequest config (payloadBytes
            ((files.take config.MaxFiles.toNat).filterMap (loadFile fs)))) = some resp →
          resp.StatusCode ≠ 200) ∧
        processFiles config os ⟨fs, []⟩ = (Outcome.sendFailed,
          ⟨fs, (files.take config.MaxFiles.toNat).map Event.read ++
            [Event.post (builtRequest config (payloadBytes
              ((files.take config.MaxFiles.toNat).filterMap (loadFile fs))))]⟩) ∨
       (files.take config.MaxFiles.toNat).filterMap (loadFile fs) ≠ [] ∧
        os.validURL config.ApiEndpoint = true ∧
        (∃ resp, os.Do (builtRequest config (payloadBytes
            ((files.take config.MaxFiles.toNat).filterMap (loadFile fs)))) = some resp ∧
          resp.StatusCode = 200) ∧
        processFiles config os ⟨fs, []⟩ = (Outcome.committed,
          removeLoop (files.take config.MaxFiles.toNat)
            ⟨fs, (files.take config.MaxFiles.toNat).map Event.read ++
              [Event.post (builtRequest config (payloadBytes
                ((files.take config.MaxFiles.toNat).filterMap (loadFile fs))))]⟩))) := by
  cases hglob : os.Glob config.PathPattern fs with
  | none =>
    left
    rw [processFiles_glob_none config os ⟨fs, []⟩ hglob]
    simp
  | some files =>
    by_cases hne : files = []
    · subst hne
      left
      rw [processFiles_glob_nil config os ⟨fs, []⟩ hglob]
      simp
    · by_cases hmax : config.MaxFiles < 0
      · left
        rw [processFiles_panic config os ⟨fs, []⟩ files hglob hne hmax]
        simp [hmax]
      · right
        have hmax2 : 0 ≤ config.MaxFiles := not_lt.1 hmax
        refine ⟨files, rfl, hne, hmax2, ?_⟩
        rw [processFiles_eq config os ⟨fs, []⟩ files hglob hne hmax2]
        simp only [List.nil_append, List.length_eq_zero]
        by_cases hd : (files.take config.MaxFiles.toNat).filterMap (loadFile fs) = []
        · left
          simp [hd]
        · right
          by_cases hv : os.validURL config.ApiEndpoint = true
          · right
            cases hdo : os.Do (builtRequest config (payloadBytes
              ((files.take config.MaxFiles.toNat).filterMap (loadFile fs)))) with
            | none =>
              left
              simp [hd, hv]
            | some resp =>
              by_cases hs : resp.StatusCode = 200
              · right
                simp [hd, hv, hs]
              · left
                simp [hd, hv, hs]
          · left
            simp [hd, hv]

/-! ## The claims -/

/-- C3: `sendPayload` returns true exactly when the request was constructed, the
transport returned a response without error and its status code is 200; every
other status code and every transport or request-construction error gives
false. -/
theorem C3_sendPayload_true_iff (config : Config) (os : OS) (payload : Bytes) (w : World) :
    (sendPayload config os payload w).1 = true ↔
      ((NewRequest os "POST" config.ApiEndpoint payload).isSome = true ∧
        ∃ resp, os.Do (builtRequest config payload) = some resp ∧ resp.StatusCode = 200) := by
  rw [sendPayload_eq]
  unfold NewRequest
  by_cases hv : os.validURL config.ApiEndpoint = true
  · simp only [hv, if_true, Option.isSome_some, true_and]
    cases hdo : os.Do (builtRequest config payload) with
    | none => simp
    | some resp => simp
  · simp [hv]

/-- C8: when the request can be constructed, `sendPayload` hands exactly one
request to the client: a POST to the configured endpoint whose body is the
given buffer and whose headers are Accept, Content-Type, Authorization
(`Bearer ` followed by the token) and X-Server-Key, and no others. -/
theorem C8_request_headers (config : Config) (os : OS) (payload : Bytes) (w : World)
    (hurl : os.validURL config.ApiEndpoint = true) :
    ∃ req, (sendPayload config os payload w).2.trace = w.trace ++ [Event.post req] ∧
      req.Method = "POST" ∧ req.URL = config.ApiEndpoint ∧ req.Body = payload ∧
      req.Header.Get "Accept" = "application/vnd.airbox.v1+json" ∧
      req.Header.Get "Content-Type" = "application/json" ∧
      req.Header.Get "Authorization" = "Bearer " ++ config.ApiToken ∧
      req.Header.Get "X-Server-Key" = config.ServerKey ∧
      req.Header.map Prod.fst = ["Accept", "Content-Type", "Authorization", "X-Server-Key"] := by
  refine ⟨builtRequest config payload, ?_, ?_⟩
  · rw [sendPayload_eq, if_pos hurl]
  · simp [builtRequest, Header.Get]

/-- Witness of C8 on the configuration of `TestSendPayload`. -/
theorem C8_request_headers_witness :
    ∃ req, (sendPayload testConfig (osAnswering [] 200) okContent ⟨fsE, []⟩).2.trace
        = [] ++ [Event.post req] ∧
      req.Method = "POST" ∧ req.URL = "http://localhost:8080/test" ∧ req.Body = okContent ∧
      req.Header.Get "Accept" = "application/vnd.airbox.v1+json" ∧
      req.Header.Get "Content-Type" = "application/json" ∧
      req.Header.Get "Authorization" = "Bearer " ++ "test_token" ∧
      req.Header.Get "X-Server-Key" = "test_server_key" ∧
      req.Header.map Prod.fst = ["Accept", "Content-Type", "Authorization", "X-Server-Key"] :=
  C8_request_headers testConfig (osAnswering [] 200) okContent ⟨fsE, []⟩ rfl

/-- C2: when a cycle posts a request and the transport fails or answers with a
status other than 200, the cycle attempts no removal and the file system after
it is the one before it. -/
theorem C2_failed_delivery_keeps_files (config : Config) (os : OS) (fs : FS) (req : Request)
    (hreq : req ∈ posts (processFiles config os ⟨fs, []⟩).2.trace)
    (hfail : ∀ resp, os.Do req = some resp → resp.StatusCode ≠ 200) :
    (processFiles config os ⟨fs, []⟩).2.fs = fs ∧
      removals (processFiles config os ⟨fs, []⟩).2.trace = [] ∧
      (processFiles config os ⟨fs, []⟩).1 = Outcome.sendFailed := by
  rcases processFiles_cases config os fs with h | ⟨files, _, _, _, h⟩
  · rw [h.1] at hreq
    simp [posts] at hreq
  · rcases h with ⟨_, h⟩ | ⟨_, _, h⟩ | ⟨_, _, _, h⟩ | ⟨_, _, ⟨resp, hdo, hs⟩, h⟩
    · rw [h] at hreq
      simp only [posts_map_read, List.not_mem_nil] at hreq
    · rw [h] at hreq
      simp only [posts_map_read, List.not_mem_nil] at hreq
    · rw [h]
      simp only [removals_append, removals_map_read, removals, List.append_nil, and_self]
    · rw [h] at hreq
      rw [(removeLoop_trace _ _).2.1] at hreq
      simp only [posts_append, posts_map_read, posts, List.nil_append, List.mem_singleton] at hreq
      subst hreq
      exact absurd hs (hfail resp hdo)

/-- Scenario E as a witness of C2: one valid file, the endpoint answers 500, the
file stays. -/
theorem C2_failed_delivery_keeps_files_witness :
    (processFiles testConfig (osAnswering ["a.json"] 500) ⟨fsE, []⟩).2.fs = fsE ∧
      removals (processFiles testConfig (osAnswering ["a.json"] 500) ⟨fsE, []⟩).2.trace = [] ∧
      (processFiles testConfig (osAnswering ["a.json"] 500) ⟨fsE, []⟩).1 = Outcome.sendFailed :=
  C2_failed_delivery_keeps_files testConfig (osAnswering ["a.json"] 500) fsE
    (builtRequest testConfig (payloadBytes [okDocument]))
    (List.Mem.head _)
    (fun resp h => by
      have h2 : resp = { StatusCode := 500 } := (Option.some.inj h).symm
      rw [h2]; decide)

/-- C6: when the pattern is invalid, matches nothing, or every candidate file
fails to read or parse, the cycle posts no request, attempts no removal and
leaves the file system as it was. -/
theorem C6_nothing_loaded_nothing_sent (config : Config) (os : OS) (fs : FS)
    (hnone : ∀ files, os.Glob config.PathPattern fs = some files →
      ∀ p ∈ files.take config.MaxFiles.toNat, loadFile fs p = none) :
    posts (processFiles config os ⟨fs, []⟩).2.trace = [] ∧
      removals (processFiles config os ⟨fs, []⟩).2.trace = [] ∧
      (processFiles config os ⟨fs, []⟩).2.fs = fs := by
  rcases processFiles_cases config os fs with h | ⟨files, hglob, _, _, h⟩
  · rw [h.1]
    simp [posts, removals]
  · have hd : (files.take config.MaxFiles.toNat).filterMap (loadFile fs) = [] := by
      rw [List.filterMap_eq_nil_iff]
      exact hnone files hglob
    rcases h with ⟨_, h⟩ | ⟨hne, _⟩ | ⟨hne, _⟩ | ⟨hne, _⟩
    · rw [h]
      simp only [posts_map_read, removals_map_read, and_self]
    · exact absurd hd hne
    · exact absurd hd hne
    · exact absurd hd hne

/-- Witness of C6: a cycle whose only candidate is malformed. -/
theorem C6_nothing_loaded_nothing_sent_witness :
    posts (processFiles testConfig (osAnswering ["bad.json"] 200) ⟨fsD, []⟩).2.trace = [] ∧
      removals (processFiles testConfig (osAnswering ["bad.json"] 200) ⟨fsD, []⟩).2.trace = [] ∧
      (processFiles testConfig (osAnswering ["bad.json"] 200) ⟨fsD, []⟩).2.fs = fsD :=
  C6_nothing_loaded_nothing_sent testConfig (osAnswering ["bad.json"] 200) fsD
    (fun files hglob p hp => by
      have hf : files = ["bad.json"] := (Option.some.inj hglob).symm
      subst hf
      have hp2 : p = "bad.json" := by simpa using List.mem_of_mem_take hp
      subst hp2
      rfl)

/-- C4: when a cycle posts a request that the endpoint answers with status 200,
the cycle ends normally, removal is attempted for every path of the batch, once
each and in order, whatever the fate of the earlier removals; a batch file whose
removal can succeed is absent afterwards, and a batch file still present
afterwards is one whose removal failed, left as it was. -/
theorem C4_commit_attempts_every_removal (config : Config) (os : OS) (fs : FS)
    (files : List Path) (req : Request) (resp : Response)
    (hglob : os.Glob config.PathPattern fs = some files)
    (hreq : req ∈ posts (processFiles config os ⟨fs, []⟩).2.trace)
    (hdo : os.Do req = some resp) (hok : resp.StatusCode = 200) :
    (processFiles config os ⟨fs, []⟩).1 = Outcome.committed ∧
      removals (processFiles config os ⟨fs, []⟩).2.trace = files.take config.MaxFiles.toNat ∧
      ∀ p ∈ files.take config.MaxFiles.toNat,
        (∀ f, fs p = some f → f.removable = true →
          (processFiles config os ⟨fs, []⟩).2.fs p = none) ∧
        (∀ g, (processFiles config os ⟨fs, []⟩).2.fs p = some g →
          fs p = some g ∧ g.removable = false) := by
  rcases processFiles_cases config os fs with h | ⟨files2, hglob2, _, _, h⟩
  · rw [h.1] at hreq
    simp [posts] at hreq
  · have hf : files2 = files := Option.some.inj (hglob2.symm.trans hglob)
    subst hf
    rcases h with ⟨_, h⟩ | ⟨_, _, h⟩ | ⟨_, _, hno, h⟩ | ⟨_, _, _, h⟩
    · rw [h] at hreq
      simp only [posts_map_read, List.not_mem_nil] at hreq
    · rw [h] at hreq
      simp only [posts_map_read, List.not_mem_nil] at hreq
    · rw [h] at hreq
      simp only [posts_append, posts_map_read, posts, List.nil_append, List.mem_singleton] at hreq
      subst hreq
      exact absurd hok (hno resp hdo)
    · rw [h]
      refine ⟨rfl, ?_, ?_⟩
      · rw [(removeLoop_trace _ _).1]
        simp only [removals_append, removals_map_read, removals, List.nil_append]
      · intro p hp
        constructor
        · intro f hf hr
          show (removeLoop _ _).fs p = none
          rw [removeLoop_fs]
          simp [hf, hp, hr]
        · intro g hg
          have hg2 : (removeLoop (files2.take config.MaxFiles.toNat) _).fs p = some g := hg
          rw [removeLoop_fs] at hg2
          cases hf : fs p with
          | none => simp [hf] at hg2
          | some f =>
            simp only [hf, hp, true_and] at hg2
            by_cases hr : f.removable = true
            · simp [hr] at hg2
            · rw [if_neg hr] at hg2
              have hfg : f = g := Option.some.inj hg2
              subst hfg
              exact ⟨rfl, by simpa using hr⟩

/-- Scenario F as a witness of C4: two files are shipped, the first cannot be
removed; both removals are attempted, the second file is gone and the first
remains. -/
theorem C4_commit_attempts_every_removal_witness :
    ((processFiles testConfig (osAnswering ["a.json", "b.json"] 200) ⟨fsF, []⟩).1
        = Outcome.committed ∧
      removals (processFiles testConfig (osAnswering ["a.json", "b.json"] 200) ⟨fsF, []⟩).2.trace
        = ["a.json", "b.json"].take testConfig.MaxFiles.toNat ∧
      ∀ p ∈ ["a.json", "b.json"].take testConfig.MaxFiles.toNat,
        (∀ f, fsF p = some f → f.removable = true →
          (processFiles testConfig (osAnswering ["a.json", "b.json"] 200) ⟨fsF, []⟩).2.fs p
            = none) ∧
        (∀ g, (processFiles testConfig (osAnswering ["a.json", "b.json"] 200) ⟨fsF, []⟩).2.fs p
            = some g → fsF p = some g ∧ g.removable = false)) ∧
    ((processFiles testConfig (osAnswering ["a.json", "b.json"] 200) ⟨fsF, []⟩).2.fs
        "a.json").isSome = true ∧
    ((processFiles testConfig (osAnswering ["a.json", "b.json"] 200) ⟨fsF, []⟩).2.fs
        "b.json").isSome = false :=
  ⟨C4_commit_attempts_every_removal testConfig (osAnswering ["a.json", "b.json"] 200) fsF
      ["a.json", "b.json"] (builtRequest testConfig (payloadBytes [okDocument, okDocument]))
      { StatusCode := 200 } rfl (List.Mem.head _) rfl rfl,
    by decide, by decide⟩

/-- C5: for a positive `MaxFiles`, the files a cycle reads are exactly the first
`min n MaxFiles` of the `n` paths the glob returned, in discovery order; the
body of a posted request is built from the documents of these files alone, any
removal attempted is of one of them, and a path outside this prefix is neither
read nor removed and holds after the cycle what it held before. -/
theorem C5_only_the_first_files_are_considered (config : Config) (os : OS) (fs : FS)
    (files : List Path) (hglob : os.Glob config.PathPattern fs = some files)
    (hpos : 0 < config.MaxFiles) :
    reads (processFiles config os ⟨fs, []⟩).2.trace = files.take config.MaxFiles.toNat ∧
      (files.take config.MaxFiles.toNat).length = min files.length config.MaxFiles.toNat ∧
      (∀ req ∈ posts (processFiles config os ⟨fs, []⟩).2.trace,
        req.Body = payloadBytes ((files.take config.MaxFiles.toNat).filterMap (loadFile fs))) ∧
      (∀ p ∈ removals (processFiles config os ⟨fs, []⟩).2.trace,
        p ∈ files.take config.MaxFiles.toNat) ∧
      ∀ p, p ∉ files.take config.MaxFiles.toNat →
        p ∉ reads (processFiles config os ⟨fs, []⟩).2.trace ∧
        p ∉ removals (processFiles config os ⟨fs, []⟩).2.trace ∧
        (processFiles config os ⟨fs, []⟩).2.fs p = fs p := by
  have key : reads (processFiles config os ⟨fs, []⟩).2.trace = files.take config.MaxFiles.toNat ∧
      (∀ req ∈ posts (processFiles config os ⟨fs, []⟩).2.trace,
        req.Body = payloadBytes ((files.take config.MaxFiles.toNat).filterMap (loadFile fs))) ∧
      (∀ p ∈ removals (processFiles config os ⟨fs, []⟩).2.trace,
        p ∈ files.take config.MaxFiles.toNat) ∧
      ∀ p, p ∉ files.take config.MaxFiles.toNat →
        (processFiles config os ⟨fs, []⟩).2.fs p = fs p := by
    rcases processFiles_cases config os fs with h | ⟨files2, hglob2, _, _, h⟩
    · rcases h with ⟨h, _, _, _, hg | hg | hg⟩
      · rw [hglob] at hg
        exact absurd hg (by simp)
      · have hf : files = [] := Option.some.inj (hglob.symm.trans hg)
        subst hf
        rw [h]
        simp [reads, posts, removals]
      · omega
    · have hf : files2 = files := Option.some.inj (hglob2.symm.trans hglob)
      subst hf
      rcases h with ⟨_, h⟩ | ⟨_, _, h⟩ | ⟨_, _, _, h⟩ | ⟨_, _, _, h⟩
      · rw [h]
        simp only [reads_map_read, posts_map_read, removals_map_read, List.not_mem_nil,
          false_implies, implies_true, and_self]
      · rw [h]
        simp only [reads_map_read, posts_map_read, removals_map_read, List.not_mem_nil,
          false_implies, implies_true, and_self]
      · rw [h]
        simp only [reads_append, posts_append, removals_append, reads_map_read, posts_map_read,
          removals_map_read, reads, posts, removals, List.append_nil, List.nil_append,
          List.mem_singleton, List.not_mem_nil, false_implies, implies_true, and_true, true_and]
        intro r hr
        subst hr
        rfl
      · rw [h]
        obtain ⟨t1, t2, t3⟩ := removeLoop_trace (files2.take config.MaxFiles.toNat)
          ⟨fs, (files2.take config.MaxFiles.toNat).map Event.read ++
              [Event.post (builtRequest config (payloadBytes
                ((files2.take config.MaxFiles.toNat).filterMap (loadFile fs))))]⟩
        refine ⟨?_, ?_, ?_, ?_⟩
        · rw [t3]
          simp only [reads_append, reads_map_read, reads, List.append_nil]
        · rw [t2]
          simp only [posts_append, posts_map_read, posts, List.nil_append, List.mem_singleton]
          intro r hr
          subst hr
          rfl
        · rw [t1]
          simp only [removals_append, removals_map_read, removals, List.nil_append]
          exact fun p hp => hp
        · intro p hp
          show (removeLoop _ _).fs p = fs p
          rw [removeLoop_fs]
          cases hfp : fs p with
          | none => simp [hfp]
          | some f => simp [hfp, hp]
  obtain ⟨k1, k2, k3, k4⟩ := key
  refine ⟨k1, ?_, k2, k3, ?_⟩
  · rw [List.length_take, Nat.min_comm]
  · intro p hp
    refine ⟨?_, ?_, k4 p hp⟩
    · rw [k1]; exact hp
    · exact fun hm => hp (k3 p hm)

/-- Scenario C as a witness of C5: ten files match, `MaxFiles` is 5; the first
five are read, shipped and removed, the other five are still there. -/
theorem C5_only_the_first_files_are_considered_witness :
    (reads (processFiles testConfig (osAnswering namesC 200) ⟨fsC, []⟩).2.trace
        = namesC.take testConfig.MaxFiles.toNat ∧
      (namesC.take testConfig.MaxFiles.toNat).length = min namesC.length testConfig.MaxFiles.toNat ∧
      (∀ req ∈ posts (processFiles testConfig (osAnswering namesC 200) ⟨fsC, []⟩).2.trace,
        req.Body
          = payloadBytes ((namesC.take testConfig.MaxFiles.toNat).filterMap (loadFile fsC))) ∧
      (∀ p ∈ removals (processFiles testConfig (osAnswering namesC 200) ⟨fsC, []⟩).2.trace,
        p ∈ namesC.take testConfig.MaxFiles.toNat) ∧
      ∀ p, p ∉ namesC.take testConfig.MaxFiles.toNat →
        p ∉ reads (processFiles testConfig (osAnswering namesC 200) ⟨fsC, []⟩).2.trace ∧
        p ∉ removals (processFiles testConfig (osAnswering namesC 200) ⟨fsC, []⟩).2.trace ∧
        (processFiles testConfig (osAnswering namesC 200) ⟨fsC, []⟩).2.fs p = fsC p) ∧
    removals (processFiles testConfig (osAnswering namesC 200) ⟨fsC, []⟩).2.trace
      = ["f0.json", "f1.json", "f2.json", "f3.json", "f4.json"] ∧
    namesC.map (fun p =>
        ((processFiles testConfig (osAnswering namesC 200) ⟨fsC, []⟩).2.fs p).isSome)
      = [false, false, false, false, false, true, true, true, true, true] :=
  ⟨C5_only_the_first_files_are_considered testConfig (osAnswering namesC 200) fsC namesC rfl
      (by decide),
    by decide, by decide⟩

theorem nested_depth (n : Nat) : (nested n).depth = n := by
  induction n with
  | zero => simp [nested, JSON.depth]
  | succ n ih => simp [nested, JSON.depth, depthObject, ih]

theorem decodeValue_nested (n : Nat) : decodeValue (nested n) = some (nestedValue n) := by
  induction n with
  | zero => simp [nested, nestedValue, decodeValue]
  | succ n ih => simp [nested, nestedValue, decodeValue, decodeObject, ih, mapSet]

theorem encodeValue_nestedValue (n : Nat) : encodeValue (nestedValue n) = nested n := by
  induction n with
  | zero => simp [nested, nestedValue, encodeValue]
  | succ n ih => simp [nested, nestedValue, encodeValue, encodeMap, ih]

theorem depthArray_le_iff (xs : List JSON) (n : Nat) :
    depthArray xs ≤ n ↔ ∀ x ∈ xs, x.depth ≤ n := by
  induction xs with
  | nil => simp [depthArray]
  | cons x xs ih => simp [depthArray, ih]

theorem checkValid_text (j : JSON) :
    checkValid (Bytes.text j) = if j.depth ≤ maxNestingDepth then some j else none := rfl

theorem jsonUnmarshalMap_isSome (content : Bytes) :
    (jsonUnmarshalMap content).isSome = acceptable content := by
  cases content with
  | invalid => simp [jsonUnmarshalMap, checkValid, acceptable]
  | text j =>
    by_cases hd : j.depth ≤ maxNestingDepth
    · cases j with
      | null => simp [jsonUnmarshalMap, checkValid, acceptable, hd]
      | object kvs =>
        simp [jsonUnmarshalMap, checkValid, acceptable, hd, decodeObject_isSome]
      | bool b => simp [jsonUnmarshalMap, checkValid, acceptable, hd]
      | number n => simp [jsonUnmarshalMap, checkValid, acceptable, hd]
      | string s => simp [jsonUnmarshalMap, checkValid, acceptable, hd]
      | array xs => simp [jsonUnmarshalMap, checkValid, acceptable, hd]
    · cases j with
      | null => exact absurd (by simp [JSON.depth]) hd
      | object kvs => simp [jsonUnmarshalMap, checkValid, acceptable, hd]
      | bool b => simp [jsonUnmarshalMap, checkValid, acceptable, hd]
      | number n => simp [jsonUnmarshalMap, checkValid, acceptable, hd]
      | string s => simp [jsonUnmarshalMap, checkValid, acceptable, hd]
      | array xs => simp [jsonUnmarshalMap, checkValid, acceptable, hd]

theorem loadFile_eq (fs : FS) (file : Path) :
    loadFile fs file = (contentOf fs file).bind jsonUnmarshalMap := rfl

theorem loadFile_isSome (fs : FS) (file : Path) :
    (loadFile fs file).isSome = accepts fs file := by
  rw [loadFile_eq]
  unfold accepts
  cases contentOf fs file with
  | none => rfl
  | some content => simpa using jsonUnmarshalMap_isSome content

/-- A document the loader obtained decodes back from its encoding. -/
theorem jsonUnmarshalMap_roundtrip (content : Bytes) (d : Document)
    (h : jsonUnmarshalMap content = some d) :
    decodeValue (encodeDocument d) = some d.toValue := by
  unfold jsonUnmarshalMap at h
  cases hv : checkValid content with
  | none => simp [hv] at h
  | some j =>
    rw [hv] at h
    cases j with
    | null =>
      simp only [Option.some.injEq] at h
      subst h
      rfl
    | object kvs =>
      simp only [Option.map_eq_some'] at h
      obtain ⟨m, hm, rfl⟩ := h
      have hv : decodeValue (JSON.object kvs) = some (Value.map m) := by
        simp [decodeValue, hm]
      have := decodeValue_roundtrip (JSON.object kvs) (Value.map m) hv
      simpa [encodeValue, encodeDocument, Document.toValue] using this
    | bool b => simp at h
    | number n => simp at h
    | string s => simp at h
    | array xs => simp at h

theorem loadFile_roundtrip (fs : FS) (p : Path) (d : Document) (h : loadFile fs p = some d) :
    decodeValue (encodeDocument d) = some d.toValue := by
  rw [loadFile_eq] at h
  cases hc : contentOf fs p with
  | none => simp [hc] at h
  | some content =>
    simp only [hc, Option.some_bind] at h
    exact jsonUnmarshalMap_roundtrip content d h

theorem decodeArray_encodeDocuments (docs : List Document)
    (h : ∀ d ∈ docs, decodeValue (encodeDocument d) = some d.toValue) :
    decodeArray (docs.map encodeDocument) = some (docs.map Document.toValue) := by
  induction docs with
  | nil => simp [decodeArray]
  | cons d ds ih =>
    simp only [List.map_cons, decodeArray]
    rw [h d (by simp), ih (fun u hu => h u (List.mem_cons_of_mem _ hu))]

theorem payloadBytes_eq (docs : List Document) (hne : docs ≠ []) :
    payloadBytes docs
      = Bytes.text (JSON.object [("data", JSON.array (docs.map encodeDocument))]) := by
  cases docs with
  | nil => exact absurd rfl hne
  | cons d ds => rfl

theorem envelope_depth (xs : List JSON) :
    (JSON.object [("data", JSON.array xs)]).depth = depthArray xs + 2 := by
  simp [JSON.depth, depthObject]

/-- Deserializing the buffer marshalled for a non-empty list of loaded documents
gives the object with the one member `data` holding these documents, when no
document is nested deeper than the scanner's limit less two. -/
theorem deserialize_payloadBytes (docs : List Document) (hne : docs ≠ [])
    (h : ∀ d ∈ docs, decodeValue (encodeDocument d) = some d.toValue)
    (hdepth : ∀ d ∈ docs, d.depth + 2 ≤ maxNestingDepth) :
    deserialize (payloadBytes docs)
      = some (Value.map [("data", Value.slice (docs.map Document.toValue))]) := by
  have hle : depthArray (docs.map encodeDocument) + 2 ≤ maxNestingDepth := by
    have h2 : depthArray (docs.map encodeDocument) ≤ maxNestingDepth - 2 := by
      rw [depthArray_le_iff]
      intro x hx
      obtain ⟨d, hd, rfl⟩ := List.mem_map.1 hx
      have := hdepth d hd
      unfold Document.depth at this
      omega
    have h3 : 2 ≤ maxNestingDepth := by decide
    omega
  rw [payloadBytes_eq docs hne]
  unfold deserialize
  rw [checkValid_text, envelope_depth, if_pos hle]
  simp only [decodeValue, decodeObject]
  rw [decodeArray_encodeDocuments docs h]
  simp [mapSet]

/-- The deserializer rejects the buffer marshalled for a list of documents one
of which is nested deeper than the scanner's limit less two. -/
theorem deserialize_payloadBytes_deep (docs : List Document) (d : Document) (hd : d ∈ docs)
    (hdepth : maxNestingDepth < d.depth + 2) :
    deserialize (payloadBytes docs) = none := by
  have hne : docs ≠ [] := List.ne_nil_of_mem hd
  have hgt : ¬ depthArray (docs.map encodeDocument) + 2 ≤ maxNestingDepth := by
    intro hle
    have h2 : depthArray (docs.map encodeDocument) ≤ maxNestingDepth - 2 := by omega
    rw [depthArray_le_iff] at h2
    have := h2 (encodeDocument d) (List.mem_map_of_mem _ hd)
    unfold Document.depth at hdepth
    omega
  rw [payloadBytes_eq docs hne]
  unfold deserialize
  rw [checkValid_text, envelope_depth, if_neg hgt]

/-- The body of a request a cycle posts is the buffer marshalled for the
documents of the batch files that load, of which there is at least one. -/
theorem posted_body (config : Config) (os : OS) (fs : FS) (files : List Path) (req : Request)
    (hglob : os.Glob config.PathPattern fs = some files)
    (hreq : req ∈ posts (processFiles config os ⟨fs, []⟩).2.trace) :
    req = builtRequest config
        (payloadBytes ((files.take config.MaxFiles.toNat).filterMap (loadFile fs))) ∧
      (files.take config.MaxFiles.toNat).filterMap (loadFile fs) ≠ [] := by
  rcases processFiles_cases config os fs with h | ⟨files2, hglob2, _, _, h⟩
  · rw [h.1] at hreq
    simp [posts] at hreq
  · have hf : files2 = files := Option.some.inj (hglob2.symm.trans hglob)
    subst hf
    rcases h with ⟨_, h⟩ | ⟨_, _, h⟩ | ⟨hne, _, _, h⟩ | ⟨hne, _, _, h⟩
    · rw [h] at hreq
      simp only [posts_map_read, List.not_mem_nil] at hreq
    · rw [h] at hreq
      simp only [posts_map_read, List.not_mem_nil] at hreq
    · rw [h] at hreq
      simp only [posts_append, posts_map_read, posts, List.nil_append, List.mem_singleton] at hreq
      exact ⟨hreq, hne⟩
    · rw [h, (removeLoop_trace _ _).2.1] at hreq
      simp only [posts_append, posts_map_read, posts, List.nil_append, List.mem_singleton] at hreq
      exact ⟨hreq, hne⟩

/-- A cycle that loads a document and can build its request posts exactly that
request. -/
theorem processFiles_posts (config : Config) (os : OS) (fs : FS) (files : List Path)
    (hglob : os.Glob config.PathPattern fs = some files) (hmax : 0 ≤ config.MaxFiles)
    (hdocs : (files.take config.MaxFiles.toNat).filterMap (loadFile fs) ≠ [])
    (hurl : os.validURL config.ApiEndpoint = true) :
    posts (processFiles config os ⟨fs, []⟩).2.trace
      = [builtRequest config
          (payloadBytes ((files.take config.MaxFiles.toNat).filterMap (loadFile fs)))] := by
  rcases processFiles_cases config os fs with h | ⟨files2, hglob2, _, _, h⟩
  · rcases h with ⟨_, _, _, _, hg | hg | hg⟩
    · rw [hglob] at hg
      exact absurd hg (by simp)
    · have hf : files = [] := Option.some.inj (hglob.symm.trans hg)
      subst hf
      simp at hdocs
    · omega
  · have hf : files2 = files := Option.some.inj (hglob2.symm.trans hglob)
    subst hf
    rcases h with ⟨hnil, _⟩ | ⟨_, hno, _⟩ | ⟨_, _, _, h⟩ | ⟨_, _, _, h⟩
    · exact absurd hnil hdocs
    · rw [hurl] at hno
      exact absurd hno (by simp)
    · rw [h]
      simp only [posts_append, posts_map_read, posts, List.nil_append]
    · rw [h, (removeLoop_trace _ _).2.1]
      simp only [posts_append, posts_map_read, posts, List.nil_append]

theorem jsonUnmarshalMap_nested (n : Nat) (h : n + 1 ≤ maxNestingDepth) :
    jsonUnmarshalMap (Bytes.text (nested (n + 1))) = some (some [("a", nestedValue n)]) := by
  have hd : (nested (n + 1)).depth ≤ maxNestingDepth := by
    rw [nested_depth]; exact h
  unfold jsonUnmarshalMap
  rw [checkValid_text, if_pos hd]
  simp [nested, decodeObject, decodeValue_nested, mapSet]

theorem nested_document_depth (n : Nat) :
    Document.depth (some [("a", nestedValue n)]) = n + 1 := by
  have h := nested_depth (n + 1)
  simpa [Document.depth, encodeDocument, encodeMap, encodeValue_nestedValue, nested] using h

theorem loadFile_fsDeep (n : Nat) (h : n + 1 ≤ maxNestingDepth) :
    loadFile (fsDeep n) "deep.json" = some (some [("a", nestedValue n)]) := by
  have hc : contentOf (fsDeep n) "deep.json" = some (Bytes.text (nested (n + 1))) := rfl
  rw [loadFile_eq, hc, Option.some_bind]
  exact jsonUnmarshalMap_nested n h

theorem posts_fsDeep (n : Nat) (h : n + 1 ≤ maxNestingDepth) :
    posts (processFiles testConfig (osAnswering ["deep.json"] 200) ⟨fsDeep n, []⟩).2.trace
      = [builtRequest testConfig (payloadBytes [some [("a", nestedValue n)]])] := by
  have hdocs : (["deep.json"].take testConfig.MaxFiles.toNat).filterMap (loadFile (fsDeep n))
      = [some [("a", nestedValue n)]] := by
    show List.filterMap (loadFile (fsDeep n)) ["deep.json"] = _
    simp only [List.filterMap_cons, loadFile_fsDeep n h, List.filterMap_nil]
  have hposts := processFiles_posts testConfig (osAnswering ["deep.json"] 200) (fsDeep n)
    ["deep.json"] rfl (by decide) (by rw [hdocs]; simp) rfl
  rw [hdocs] at hposts
  exact hposts

theorem deserialize_deep_body (n : Nat) (h : maxNestingDepth < n + 3) :
    deserialize (builtRequest testConfig (payloadBytes [some [("a", nestedValue n)]])).Body
      = none := by
  apply deserialize_payloadBytes_deep [some [("a", nestedValue n)]]
    (some [("a", nestedValue n)]) (List.Mem.head _)
  rw [nested_document_depth]
  omega

/-- C7, counterexample: a cycle over one file holding an object nested 9999
levels deep, which the loader accepts, posts a body nested 10001 levels deep,
and deserializing that body fails. -/
theorem C7_deep_document_payload_is_rejected :
    posts (processFiles testConfig (osAnswering ["deep.json"] 200) ⟨fsDeep 9998, []⟩).2.trace
      = [builtRequest testConfig (payloadBytes [some [("a", nestedValue 9998)]])] ∧
    deserialize (builtRequest testConfig (payloadBytes [some [("a", nestedValue 9998)]])).Body
      = none :=
  ⟨posts_fsDeep 9998 (by unfold maxNestingDepth; omega),
    deserialize_deep_body 9998 (by unfold maxNestingDepth; omega)⟩

/-- C7, amended: the body of a request a cycle posts is the JSON text of the
object with the single member `data`, an array holding the encodings of the
documents of the candidate files that read and parsed, one element each and in
the order of the truncated discovery list.  When every such document is nested
at most 9998 levels deep (the body then nests at most 10000), deserializing the
body yields that object with elements equal to the documents; when one is
nested deeper, deserializing the body fails. -/
theorem C7_payload_roundtrip_within_depth (config : Config) (os : OS) (fs : FS)
    (files : List Path) (req : Request) (hglob : os.Glob config.PathPattern fs = some files)
    (hreq : req ∈ posts (processFiles config os ⟨fs, []⟩).2.trace) :
    req.Body = Bytes.text (JSON.object [("data", JSON.array
      (((files.take config.MaxFiles.toNat).filterMap (loadFile fs)).map encodeDocument))]) ∧
    ((∀ d ∈ (files.take config.MaxFiles.toNat).filterMap (loadFile fs),
        d.depth + 2 ≤ maxNestingDepth) →
      deserialize req.Body = some (Value.map [("data", Value.slice
        (((files.take config.MaxFiles.toNat).filterMap (loadFile fs)).map Document.toValue))])) ∧
    ((∃ d ∈ (files.take config.MaxFiles.toNat).filterMap (loadFile fs),
        maxNestingDepth < d.depth + 2) →
      deserialize req.Body = none) := by
  obtain ⟨hbody, hne⟩ := posted_body config os fs files req hglob hreq
  subst hbody
  refine ⟨payloadBytes_eq _ hne, ?_, ?_⟩
  · intro hdepth
    apply deserialize_payloadBytes _ hne _ hdepth
    intro d hd
    obtain ⟨p, _, hp⟩ := List.mem_filterMap.1 hd
    exact loadFile_roundtrip fs p d hp
  · rintro ⟨d, hd, hdeep⟩
    exact deserialize_payloadBytes_deep _ d hd hdeep

/-- Scenario D as a witness of the amended C7: of two valid files and a
malformed one, the payload holds the two valid documents, in order, and
deserializes to them. -/
theorem C7_payload_roundtrip_within_depth_witness :
    deserialize (builtRequest testConfig (payloadBytes [okDocument, okDocument])).Body
      = some (Value.map [("data", Value.slice
          (((["a.json", "bad.json", "c.json"].take testConfig.MaxFiles.toNat).filterMap
            (loadFile fsD)).map Document.toValue))]) ∧
    ((["a.json", "bad.json", "c.json"].take testConfig.MaxFiles.toNat).filterMap
        (loadFile fsD)).map Document.toValue
      = [Value.map [("key", Value.string "value")], Value.map [("key", Value.string "value")]] :=
  ⟨(C7_payload_roundtrip_within_depth testConfig
      (osAnswering ["a.json", "bad.json", "c.json"] 200) fsD ["a.json", "bad.json", "c.json"]
      (builtRequest testConfig (payloadBytes [okDocument, okDocument])) rfl
      (List.Mem.head _)).2.1
      (fun d hd => by
        have h2 : d ∈ [okDocument, okDocument] := hd
        have h3 : d = okDocument := by simpa using h2
        subst h3
        decide),
    rfl⟩

theorem length_filterMap_loadFile (fs : FS) (files : List Path) :
    (files.filterMap (loadFile fs)).length = (files.filter (accepts fs)).length := by
  induction files with
  | nil => rfl
  | cons p rest ih =>
    have h := loadFile_isSome fs p
    cases hl : loadFile fs p with
    | none =>
      rw [hl] at h
      simp [List.filterMap_cons, hl, List.filter_cons, ← h, ih]
    | some d =>
      rw [hl] at h
      simp [List.filterMap_cons, hl, List.filter_cons, ← h, ih]

/-- C9, counterexample: a file whose whole content is the JSON value `null`, which
is not an object, is accepted by the loader, which appends a nil map for it; the
cycle then ships a `data` array whose one element is `null`.  (And a file
holding an object with a number outside the float64 range, although a valid JSON
object, is skipped.) -/
theorem C9_null_content_is_accepted :
    contentOf fsNull "n.json" = some (Bytes.text JSON.null) ∧
    (¬ ∃ kvs, Bytes.text JSON.null = Bytes.text (JSON.object kvs)) ∧
    (loadLoop ["n.json"] [] ⟨fsNull, []⟩).1 = [none] ∧
    (posts (processFiles testConfig (osAnswering ["n.json"] 200) ⟨fsNull, []⟩).2.trace).map
        Request.Body = [Bytes.text (JSON.object [("data", JSON.array [JSON.null])])] ∧
    contentOf fsOverflow "o.json"
      = some (Bytes.text (JSON.object [("n", JSON.number NumLit.overflow)])) ∧
    (loadLoop ["o.json"] [] ⟨fsOverflow, []⟩).1 = [] := by
  refine ⟨rfl, ?_, rfl, rfl, rfl, rfl⟩
  rintro ⟨kvs, hk⟩
  cases hk

/-- C9, amended: the loading loop of `processFiles` appends an element for a
candidate file exactly when the file reads and its whole content is one JSON
value, nested at most 10000 levels deep, that is either `null` or an object none
of whose number literals is outside the float64 range; for `null` the element
is the nil map; every other file is skipped.  Hence the shipped `data` array
has one element per such file of the batch, each a JSON object or `null`. -/
theorem C9_loader_accepts_object_or_null (fs : FS) (file : Path)
    (payloadData : List Document) (tr : List Event) :
    (∀ content, acceptable content = true ↔
      (content = Bytes.text JSON.null ∨
        ∃ kvs, content = Bytes.text (JSON.object kvs) ∧ inRangeObject kvs = true ∧
          (JSON.object kvs).depth ≤ maxNestingDepth)) ∧
    (accepts fs file = true ↔ ∃ content, contentOf fs file = some content ∧
      acceptable content = true) ∧
    (accepts fs file = true →
      ∃ d, (loadLoop [file] payloadData ⟨fs, tr⟩).1 = payloadData ++ [d] ∧
        (encodeDocument d = JSON.null ∨ ∃ kvs, encodeDocument d = JSON.object kvs)) ∧
    (contentOf fs file = some (Bytes.text JSON.null) →
      (loadLoop [file] payloadData ⟨fs, tr⟩).1 = payloadData ++ [none]) ∧
    (accepts fs file = false → (loadLoop [file] payloadData ⟨fs, tr⟩).1 = payloadData) ∧
    ∀ (config : Config) (os : OS) (files : List Path),
      os.Glob config.PathPattern fs = some files →
      ∀ req ∈ posts (processFiles config os ⟨fs, []⟩).2.trace,
        ∃ elems, req.Body = Bytes.text (JSON.object [("data", JSON.array elems)]) ∧
          elems.length = ((files.take config.MaxFiles.toNat).filter (accepts fs)).length ∧
          ∀ e ∈ elems, e = JSON.null ∨ ∃ kvs, e = JSON.object kvs := by
  have hshape : ∀ d : Document,
      encodeDocument d = JSON.null ∨ ∃ kvs, encodeDocument d = JSON.object kvs := by
    intro d
    cases d with
    | none => exact Or.inl rfl
    | some m => exact Or.inr ⟨encodeMap m, rfl⟩
  refine ⟨?_, ?_, ?_, ?_, ?_, ?_⟩
  · intro content
    cases content with
    | invalid => simp [acceptable]
    | text j =>
      cases j with
      | null => simp [acceptable]
      | object kvs =>
        simp only [acceptable, Bool.and_eq_true, decide_eq_true_eq]
        constructor
        · rintro ⟨h1, h2⟩; exact Or.inr ⟨kvs, rfl, h1, h2⟩
        · rintro (h | ⟨kvs2, h1, h2, h3⟩)
          · cases h
          · cases h1; exact ⟨h2, h3⟩
      | bool b => simp [acceptable]
      | number n => simp [acceptable]
      | string s => simp [acceptable]
      | array xs => simp [acceptable]
  · unfold accepts
    cases contentOf fs file with
    | none => simp
    | some content => simp
  · intro hacc
    rw [loadLoop_eq]
    have h := loadFile_isSome fs file
    rw [hacc] at h
    obtain ⟨d, hd⟩ := Option.isSome_iff_exists.1 h
    refine ⟨d, ?_, hshape d⟩
    simp [List.filterMap_cons, hd]
  · intro hnull
    rw [loadLoop_eq]
    have hd : loadFile fs file = some none := by
      rw [loadFile_eq, hnull]
      rfl
    simp [List.filterMap_cons, hd]
  · intro hrej
    rw [loadLoop_eq]
    have h := loadFile_isSome fs file
    rw [hrej] at h
    have hd : loadFile fs file = none := by
      cases hl : loadFile fs file with
      | none => rfl
      | some d => rw [hl] at h; simp at h
    simp [List.filterMap_cons, hd]
  · intro config os files hglob req hreq
    obtain ⟨hbody, hne⟩ := posted_body config os fs files req hglob hreq
    subst hbody
    refine ⟨((files.take config.MaxFiles.toNat).filterMap (loadFile fs)).map encodeDocument,
      payloadBytes_eq _ hne, ?_, ?_⟩
    · rw [List.length_map, length_filterMap_loadFile]
    · intro e he
      obtain ⟨d, _, rfl⟩ := List.mem_map.1 he
      exact hshape d

/-- Scenario D and the `null` file as a witness of the amended C9: the valid
file is appended, the malformed one is skipped, the `null` file is appended as
the nil map and shipped as the one element of the `data` array. -/
theorem C9_loader_accepts_object_or_null_witness :
    (∃ d, (loadLoop ["a.json"] [] ⟨fsD, []⟩).1 = [] ++ [d] ∧
      (encodeDocument d = JSON.null ∨ ∃ kvs, encodeDocument d = JSON.object kvs)) ∧
    (loadLoop ["bad.json"] [okDocument] ⟨fsD, []⟩).1 = [okDocument] ∧
    (loadLoop ["n.json"] [] ⟨fsNull, []⟩).1 = [] ++ [none] ∧
    ∃ elems, (builtRequest testConfig (payloadBytes [none])).Body
        = Bytes.text (JSON.object [("data", JSON.array elems)]) ∧
      elems.length = ((["n.json"].take testConfig.MaxFiles.toNat).filter (accepts fsNull)).length ∧
      ∀ e ∈ elems, e = JSON.null ∨ ∃ kvs, e = JSON.object kvs :=
  ⟨(C9_loader_accepts_object_or_null fsD "a.json" [] []).2.2.1 (by decide),
    (C9_loader_accepts_object_or_null fsD "bad.json" [okDocument] []).2.2.2.2.1 (by decide),
    (C9_loader_accepts_object_or_null fsNull "n.json" [] []).2.2.2.1 rfl,
    (C9_loader_accepts_object_or_null fsNull "n.json" [] []).2.2.2.2.2 testConfig
      (osAnswering ["n.json"] 200) ["n.json"] rfl
      (builtRequest testConfig (payloadBytes [none])) (List.Mem.head _)⟩

/-- C10: when the glob returns a non-empty list, the slice expression of the
truncation step is in bounds exactly when `MaxFiles` is not negative; with
`MaxFiles ≥ 0` the cycle does not panic, with `MaxFiles = 0` it ends as "no
valid data" having posted and removed nothing, and with a negative `MaxFiles` it
panics. -/
theorem C10_truncation_bounds (config : Config) (os : OS) (fs : FS) (files : List Path)
    (hglob : os.Glob config.PathPattern fs = some files) (hne : files ≠ []) :
    ((files.length : Int) > config.MaxFiles →
      ((sliceTo files config.MaxFiles).isSome = true ↔ 0 ≤ config.MaxFiles)) ∧
    (0 ≤ config.MaxFiles → (processFiles config os ⟨fs, []⟩).1 ≠ Outcome.panicked) ∧
    (config.MaxFiles = 0 →
      (processFiles config os ⟨fs, []⟩).1 = Outcome.noValidData ∧
      posts (processFiles config os ⟨fs, []⟩).2.trace = [] ∧
      removals (processFiles config os ⟨fs, []⟩).2.trace = [] ∧
      (processFiles config os ⟨fs, []⟩).2.fs = fs) ∧
    (config.MaxFiles < 0 → (processFiles config os ⟨fs, []⟩).1 = Outcome.panicked) := by
  refine ⟨?_, ?_, ?_, ?_⟩
  · intro hgt
    unfold sliceTo
    constructor
    · intro h
      by_contra hneg
      rw [if_neg (fun hc => hneg hc.1)] at h
      simp at h
    · intro h
      rw [if_pos ⟨h, le_of_lt hgt⟩]
      rfl
  · intro hmax
    rw [processFiles_eq config os ⟨fs, []⟩ files hglob hne hmax]
    split_ifs
    · simp
    · split
      · split_ifs <;> simp
      · simp
    · simp
  · intro hzero
    rw [processFiles_eq config os ⟨fs, []⟩ files hglob hne (le_of_eq hzero.symm)]
    simp [hzero, posts, removals]
  · intro hneg
    rw [processFiles_panic config os ⟨fs, []⟩ files hglob hne hneg]

/-- Witness of C10: one valid file and an endpoint answering 200; the cycle
panics with `MaxFiles = -1`, and ends as "no valid data", the file kept, with
`MaxFiles = 0`. -/
theorem C10_truncation_bounds_witness :
    (processFiles negativeConfig (osAnswering ["a.json"] 200) ⟨fsE, []⟩).1 = Outcome.panicked ∧
    ((sliceTo ["a.json"] negativeConfig.MaxFiles).isSome = true ↔ 0 ≤ negativeConfig.MaxFiles) ∧
    (processFiles testConfig (osAnswering ["a.json"] 200) ⟨fsE, []⟩).1 ≠ Outcome.panicked ∧
    ((processFiles zeroConfig (osAnswering ["a.json"] 200) ⟨fsE, []⟩).1 = Outcome.noValidData ∧
      posts (processFiles zeroConfig (osAnswering ["a.json"] 200) ⟨fsE, []⟩).2.trace = [] ∧
      removals (processFiles zeroConfig (osAnswering ["a.json"] 200) ⟨fsE, []⟩).2.trace = [] ∧
      (processFiles zeroConfig (osAnswering ["a.json"] 200) ⟨fsE, []⟩).2.fs = fsE) :=
  ⟨(C10_truncation_bounds negativeConfig (osAnswering ["a.json"] 200) fsE ["a.json"] rfl
      (by decide)).2.2.2 (by decide),
    (C10_truncation_bounds negativeConfig (osAnswering ["a.json"] 200) fsE ["a.json"] rfl
      (by decide)).1 (by decide),
    (C10_truncation_bounds testConfig (osAnswering ["a.json"] 200) fsE ["a.json"] rfl
      (by decide)).2.1 (by decide),
    (C10_truncation_bounds zeroConfig (osAnswering ["a.json"] 200) fsE ["a.json"] rfl
      (by decide)).2.2.1 rfl⟩

/-- C1, the code at Scenario D: two valid files and a malformed one, the endpoint
answers 200.  The malformed file is on disk before the cycle and fails to load,
yet the cycle attempts its removal with the others and it is gone afterwards;
when the malformed file is the only candidate, the cycle keeps it. -/
theorem C1_scenarioD_malformed_file_is_deleted :
    (fsD "bad.json").isSome = true ∧
    (loadFile fsD "bad.json").isSome = false ∧
    (processFiles testConfig (osAnswering ["a.json", "bad.json", "c.json"] 200) ⟨fsD, []⟩).1
      = Outcome.committed ∧
    removals (processFiles testConfig (osAnswering ["a.json", "bad.json", "c.json"] 200)
      ⟨fsD, []⟩).2.trace = ["a.json", "bad.json", "c.json"] ∧
    ((processFiles testConfig (osAnswering ["a.json", "bad.json", "c.json"] 200) ⟨fsD, []⟩).2.fs
      "bad.json").isSome = false ∧
    ((processFiles testConfig (osAnswering ["bad.json"] 200) ⟨fsD, []⟩).2.fs
      "bad.json").isSome = true := by
  refine ⟨by decide, by decide, by decide, by decide, by decide, by decide⟩

end Shipper
